import Mathlib

/-!
Verification of the mistake-memory, evaluation and learning loop of the
self-improving research agent.  The definitions below are shallow embeddings
of the Python sources: `src/config.py`, `src/schemas.py`,
`src/agents/evaluator.py`, `src/agents/learner.py` and
`src/memory/mistake_store.py`.  Python floats are modelled as rationals
(every arithmetic step used by the program is exact at the values involved),
Python ints as `Int`, JSON persistence as a structured document type whose
optional fields model the `dict.get` defaults, and the wall clock as an
explicit `now` argument.  Python `sorted(key=..., reverse=True)` is a stable
descending sort; a stable sort is extensionally unique, so it is embedded as
a structural stable insertion sort.
-/

namespace Agent

/-! ## Configuration (src/config.py) -/

/-- Cap on stored mistakes, `MAX_MISTAKES_STORED = 100` in `src/config.py`. -/
def MAX_MISTAKES_STORED : Nat := 100

/-- Recurrence threshold, `MISTAKE_FREQUENCY_THRESHOLD = 2` in `src/config.py`. -/
def MISTAKE_FREQUENCY_THRESHOLD : Int := 2

/-! ## Data model (src/schemas.py) -/

/-- One step of a research plan (`PlanStep` in `src/schemas.py`). -/
structure PlanStep where
  step_number : Int
  description : String
  tool_required : Option String
  reasoning : String
deriving DecidableEq

/-- A research plan (`ResearchPlan` in `src/schemas.py`). -/
structure ResearchPlan where
  question : String
  steps : List PlanStep
  estimated_time : String
deriving DecidableEq

/-- Record of one tool invocation (`ToolExecution` in `src/schemas.py`). -/
structure ToolExecution where
  tool_name : String
  executed : Bool
  output_summary : Option String
  error : Option String
deriving DecidableEq

/-- Full execution record (`ExecutionTrace` in `src/schemas.py`);
the float `execution_time_seconds` is modelled as a rational. -/
structure ExecutionTrace where
  plan : ResearchPlan
  tools_executed : List ToolExecution
  final_answer : String
  execution_time_seconds : Rat
deriving DecidableEq

/-- Verdict on a trace (`EvaluationResult` in `src/schemas.py`);
the float `score` is modelled as a rational. -/
structure EvaluationResult where
  passed : Bool
  score : Rat
  required_tools_used : Bool
  correct_sequence_followed : Bool
  answer_supported_by_data : Bool
  feedback : String
  issues : List String
deriving DecidableEq

/-- A recorded mistake (`Mistake` in `src/schemas.py`). -/
structure Mistake where
  mistake_type : String
  description : String
  corrective_rule : String
  frequency : Int
  timestamp : String
  question : String
deriving DecidableEq

/-- A learned behavioural constraint (`LearningRule` in `src/schemas.py`). -/
structure LearningRule where
  rule_id : String
  rule_text : String
  applies_to : String
  priority : Nat
deriving DecidableEq

/-- Durable store contents (`MemorySnapshot` in `src/schemas.py`). -/
structure MemorySnapshot where
  mistakes : List Mistake
  version : String
  total_runs : Int
  successful_runs : Int
deriving DecidableEq

/-! ## String helpers

Embeddings of the Python string primitives the agents use: `str.lower`
(ASCII lowering suffices for every literal the program matches against),
the substring test `pat in s`, and `list.index`. -/

/-- Model of Python `str.lower` (character-wise lowering). -/
def lowerStr (s : String) : String := String.mk (s.data.map Char.toLower)

/-- Substring occurrence test on character lists. -/
def containsSubList (pat : List Char) : List Char → Bool
  | [] => pat.isEmpty
  | c :: rest => pat.isPrefixOf (c :: rest) || containsSubList pat rest

/-- Model of the Python membership test `pat in s` on strings. -/
def containsSub (s pat : String) : Bool := containsSubList pat.data s.data

/-- Model of Python `list.index` for strings (first index of `x` in `l`). -/
def indexOfStr (x : String) (l : List String) : Nat :=
  l.findIdx (fun y => decide (y = x))

/-! ## Evaluator (src/agents/evaluator.py) -/

/-- Names of the tools that actually executed, in trace order
(`executed_tools` in `EvaluatorAgent.evaluate`). -/
def executedToolNames (trace : ExecutionTrace) : List String :=
  (trace.tools_executed.filter (fun t => t.executed)).map (fun t => t.tool_name)

/-- Embedding of `EvaluatorAgent._check_sequence`. -/
def check_sequence (executedTools : List String) : Bool :=
  if executedTools = [] then false
  else if "web_search" ∈ executedTools ∧ "summarize" ∈ executedTools then
    decide (indexOfStr "web_search" executedTools < indexOfStr "summarize" executedTools)
  else if "web_search" ∈ executedTools then true
  else false

/-- Whether a `web_search` execution with `executed = true` appears in the
trace (`web_search_executed` in `_check_answer_support` and in
`LearnerAgent.analyze_failure`). -/
def webSearchExecuted (trace : ExecutionTrace) : Bool :=
  trace.tools_executed.any (fun t => decide (t.tool_name = "web_search") && t.executed)

/-- The fixed admission phrases of `_check_answer_support`. -/
def admissionPhrases : List String :=
  ["don\x27t have", "no data", "cannot answer", "insufficient information"]

/-- Embedding of `EvaluatorAgent._check_answer_support`. -/
def check_answer_support (trace : ExecutionTrace) : Bool :=
  if webSearchExecuted trace = false then
    admissionPhrases.any (fun p => containsSub (lowerStr trace.final_answer) p)
  else true

/-- Issue string appended when the required tool did not run. -/
def issueToolNotExecuted : String := "Required tool \x27web_search\x27 was not executed"

/-- Issue string appended when the sequence check fails. -/
def issueWrongSequence : String :=
  "Tools were not called in the correct sequence (web_search → summarize)"

/-- Issue string appended when the support check fails. -/
def issueNotSupported : String := "Answer may not be supported by search data"

/-- Required-tool check of `EvaluatorAgent.evaluate`. -/
def requiredToolsUsed (trace : ExecutionTrace) : Bool :=
  decide ("web_search" ∈ executedToolNames trace)

/-- Issue list built by `EvaluatorAgent.evaluate`, in source order. -/
def issuesOf (trace : ExecutionTrace) : List String :=
  (if requiredToolsUsed trace then [] else [issueToolNotExecuted]) ++
  (if check_sequence (executedToolNames trace) then [] else [issueWrongSequence]) ++
  (if check_answer_support trace then [] else [issueNotSupported])

/-- Count of true heuristic checks (`checks_passed` in `evaluate`). -/
def checksPassedOf (trace : ExecutionTrace) : Nat :=
  (cond (requiredToolsUsed trace) 1 0) +
  (cond (check_sequence (executedToolNames trace)) 1 0) +
  (cond (check_answer_support trace) 1 0)

/-- The score `checks_passed / 3.0`; exact as a rational. -/
def scoreOf (trace : ExecutionTrace) : Rat := (checksPassedOf trace : Rat) / 3

/-- The pass verdict `score >= 0.66`; the float comparison is exact at every
value `score` takes, so the rational comparison agrees with the source. -/
def passedOf (trace : ExecutionTrace) : Bool := decide ((66 : Rat) / 100 ≤ scoreOf trace)

/-- Strip leading and trailing whitespace (model of Python `str.strip`). -/
def stripStr (s : String) : String :=
  String.mk (((s.data.dropWhile Char.isWhitespace).reverse.dropWhile Char.isWhitespace).reverse)

/-- Numbered issue breakdown used by `_generate_feedback`
(`"   {i}. {issue}\n"` for issues numbered from 1). -/
def numberedIssues (issues : List String) : String :=
  String.join (issues.enum.map (fun p => "   " ++ toString (p.1 + 1) ++ ". " ++ p.2 ++ "\n"))

/-- Embedding of `EvaluatorAgent._generate_feedback`. -/
def generate_feedback (trace : ExecutionTrace) (issues : List String) (score : Rat) : String :=
  if score = 1 then
    "✅ Excellent! All criteria met. Required tools used, correct sequence followed, and answer is supported by data."
  else if (66 : Rat) / 100 ≤ score then
    stripStr ("⚠️  Acceptable but could improve.\n📋 Failure Breakdown:\n" ++ numberedIssues issues)
  else
    let executedTools := executedToolNames trace
    let diag1 : String :=
      if executedTools = [] ∨ "web_search" ∉ executedTools then
        "   → Did not search the web for information\n" else ""
    let diag2 : String :=
      if "web_search" ∈ executedTools ∧ "summarize" ∈ executedTools ∧
          indexOfStr "summarize" executedTools < indexOfStr "web_search" executedTools then
        "   → Tried to summarize before searching\n" else ""
    let diag3 : String :=
      if trace.tools_executed.any (fun t => t.executed) then "" else
        "   → No tools were executed at all\n"
    stripStr ("❌ Failed evaluation.\n📋 Failure Breakdown:\n" ++ numberedIssues issues ++
      "\n💡 What went wrong:\n" ++ diag1 ++ diag2 ++ diag3)

/-- Embedding of `EvaluatorAgent.evaluate`. -/
def evaluate (trace : ExecutionTrace) : EvaluationResult :=
  { passed := passedOf trace
    score := scoreOf trace
    required_tools_used := requiredToolsUsed trace
    correct_sequence_followed := check_sequence (executedToolNames trace)
    answer_supported_by_data := check_answer_support trace
    feedback := generate_feedback trace (issuesOf trace) (scoreOf trace)
    issues := issuesOf trace }

/-! ## Learner (src/agents/learner.py)

The wall clock (`datetime.now().isoformat()`) is threaded through as an
explicit `now : String` argument. -/

/-- Embedding of `LearnerAgent._create_mistake` (frequency defaults to 1). -/
def create_mistake (now mistake_type description corrective_rule question : String) : Mistake :=
  { mistake_type := mistake_type
    description := description
    corrective_rule := corrective_rule
    frequency := 1
    timestamp := now
    question := question }

/-- Corrective-rule text for the tool-skipped category. -/
def ruleTextToolSkipped : String :=
  "ALWAYS execute web_search before attempting to answer research questions"

/-- Corrective-rule text for the wrong-order category. -/
def ruleTextWrongOrder : String := "ALWAYS execute web_search BEFORE summarize"

/-- Corrective-rule text for the premature-answer category. -/
def ruleTextPremature : String :=
  "NEVER answer research questions without first executing web_search"

/-- Corrective-rule text for the unsupported-claim category. -/
def ruleTextUnsupported : String := "ALWAYS base answers strictly on search results"

/-- One iteration of the issue loop of `LearnerAgent.analyze_failure`: the
if/elif substring chain applied to one issue string; issues matching no
branch contribute nothing. -/
def analyzeIssue (now : String) (trace : ExecutionTrace)
    (mistakes : List Mistake) (issue : String) : List Mistake :=
    if containsSub issue "web_search" && containsSub issue "not executed" then
      mistakes ++ [create_mistake now "TOOL_SKIPPED"
        ("Failed to execute web_search for question: " ++ trace.plan.question)
        ruleTextToolSkipped trace.plan.question]
    else if containsSub (lowerStr issue) "sequence" then
      mistakes ++ [create_mistake now "WRONG_ORDER"
        ("Tools executed in wrong order for: " ++ trace.plan.question)
        ruleTextWrongOrder trace.plan.question]
    else if containsSub (lowerStr issue) "not supported" then
      if webSearchExecuted trace = false then
        mistakes ++ [create_mistake now "PREMATURE_ANSWER"
          ("Answered without gathering data: " ++ trace.plan.question)
          ruleTextPremature trace.plan.question]
      else
        mistakes ++ [create_mistake now "UNSUPPORTED_CLAIM"
          ("Answer contradicts search data: " ++ trace.plan.question)
          ruleTextUnsupported trace.plan.question]
    else mistakes

/-- Embedding of `LearnerAgent.analyze_failure`: fold the issue loop over
the evaluation issue list. -/
def analyze_failure (now : String) (trace : ExecutionTrace)
    (evaluation : EvaluationResult) : List Mistake :=
  evaluation.issues.foldl (analyzeIssue now trace) []

/-- Rule id for a mistake type.  The source derives an 8-character md5 digest
of the type tag; no claim depends on the digest values, only on the id being
a function of the type tag, so the digest itself is modelled as the tag. -/
def generate_rule_id (mistake_type : String) : String := mistake_type

/-- First-occurrence deduplication; models the insertion-ordered keys of the
`mistake_groups` dict built by `generate_learning_rules`. -/
def dedupFirst (l : List String) : List String :=
  l.foldl (fun acc x => if acc.any (fun y => decide (y = x)) then acc else acc ++ [x]) []

/-- Most-recently-timestamped element of a group; models Python
`max(group, key=lambda m: m.timestamp)`, which keeps the first maximum. -/
def latestByTimestamp (m : Mistake) (rest : List Mistake) : Mistake :=
  rest.foldl (fun acc x => if decide (acc.timestamp < x.timestamp) then x else acc) m

/-- Corrective-rule text taken from a (nonempty) group. -/
def ruleTextOfGroup : List Mistake → String
  | [] => ""
  | m :: rest => (latestByTimestamp m rest).corrective_rule

/-- The rule `generate_learning_rules` builds for one mistake type `t` of the
input list `ml`: text from the most recent group member, priority
`min(10, 3 + len(group))`, target phase planning. -/
def ruleFor (ml : List Mistake) (t : String) : LearningRule :=
  { rule_id := generate_rule_id t
    rule_text := ruleTextOfGroup (ml.filter (fun m => decide (m.mistake_type = t)))
    applies_to := "planning"
    priority := min 10 (3 + (ml.filter (fun m => decide (m.mistake_type = t))).length) }

/-! ## Stable descending sort

Model of Python `sorted(xs, key=..., reverse=True)`.  Python sorted is
stable, and a stable sort for a total preorder is extensionally unique, so
the structural stable insertion sort below computes exactly what the source
computes.  Here `le x m = true` means the key of `x` is at most the key of
`m`; an element is inserted before the first element whose key is not
larger, which preserves the original order of equal keys. -/

/-- Stable descending insertion of one element. -/
def insertStable {α : Type} (le : α → α → Bool) (m : α) : List α → List α
  | [] => [m]
  | x :: rest => if le x m then m :: x :: rest else x :: insertStable le m rest

/-- Stable descending sort (model of `sorted(..., reverse=True)`). -/
def sortRev {α : Type} (le : α → α → Bool) (l : List α) : List α :=
  l.foldr (insertStable le) []

/-- Key comparison for sorting mistakes by frequency. -/
def freqLe (a b : Mistake) : Bool := decide (a.frequency ≤ b.frequency)

/-- Key comparison for sorting rules by priority. -/
def prioLe (a b : LearningRule) : Bool := decide (a.priority ≤ b.priority)

/-- Embedding of `LearnerAgent.generate_learning_rules`: group by mistake
type in first-occurrence order, build one rule per group, sort by descending
priority. -/
def generate_learning_rules (ml : List Mistake) : List LearningRule :=
  sortRev prioLe ((dedupFirst (ml.map (fun m => m.mistake_type))).map (ruleFor ml))

/-! ## Mistake store (src/memory/mistake_store.py)

The JSON file is modelled as `Option StoredDoc`: `none` is an unreadable or
unparseable file, and the `Option` fields inside `StoredDoc` model the
`dict.get` defaults applied by `load`. -/

/-- One serialized mistake entry; `frequency` and `timestamp` have pydantic
defaults and may be absent from a hand-written file. -/
structure StoredMistakeDoc where
  mistake_type : String
  description : String
  corrective_rule : String
  frequency : Option Int
  timestamp : Option String
  question : String
deriving DecidableEq

/-- The parsed JSON document of the store file. -/
structure StoredDoc where
  mistakes : Option (List StoredMistakeDoc)
  version : Option String
  total_runs : Option Int
  successful_runs : Option Int
deriving DecidableEq

/-- Embedding of `MistakeStore.save`: serialize every field of the snapshot. -/
def save (snapshot : MemorySnapshot) : Option StoredDoc :=
  some
    { mistakes := some (snapshot.mistakes.map (fun m =>
        { mistake_type := m.mistake_type
          description := m.description
          corrective_rule := m.corrective_rule
          frequency := some m.frequency
          timestamp := some m.timestamp
          question := m.question }))
      version := some snapshot.version
      total_runs := some snapshot.total_runs
      successful_runs := some snapshot.successful_runs }

/-- Embedding of `MistakeStore.load`: an unreadable file yields the empty
version-1.0 snapshot; otherwise absent fields default (`version` to "1.0",
counters to 0, `mistakes` to `[]`, entry frequency to 1, entry timestamp to
the current time `now`). -/
def load (now : String) : Option StoredDoc → MemorySnapshot
  | none => { mistakes := [], version := "1.0", total_runs := 0, successful_runs := 0 }
  | some d =>
    { mistakes := (d.mistakes.getD []).map (fun m =>
        { mistake_type := m.mistake_type
          description := m.description
          corrective_rule := m.corrective_rule
          frequency := m.frequency.getD 1
          timestamp := m.timestamp.getD now
          question := m.question })
      version := d.version.getD "1.0"
      total_runs := d.total_runs.getD 0
      successful_runs := d.successful_runs.getD 0 }

/-- In-place update of the first stored entry whose type matches the new
mistake: frequency is incremented and the timestamp replaced (the `existing`
branch of `add_mistakes`). -/
def incrementFirst : List Mistake → Mistake → List Mistake
  | [], _ => []
  | m :: rest, nm =>
    if m.mistake_type = nm.mistake_type then
      { m with frequency := m.frequency + 1, timestamp := nm.timestamp } :: rest
    else m :: incrementFirst rest nm

/-- One iteration of the merge loop of `add_mistakes`: update the existing
entry of the same type if any, else append. -/
def mergeOne (stored : List Mistake) (nm : Mistake) : List Mistake :=
  if stored.any (fun m => decide (m.mistake_type = nm.mistake_type)) then
    incrementFirst stored nm
  else stored ++ [nm]

/-- The full merge loop of `add_mistakes` over the new-mistake list. -/
def mergeMistakes (stored newMistakes : List Mistake) : List Mistake :=
  newMistakes.foldl mergeOne stored

/-- Cap enforcement of `add_mistakes`: if the merged list exceeds the cap,
keep the `MAX_MISTAKES_STORED` most frequent entries. -/
def capMistakes (l : List Mistake) : List Mistake :=
  if MAX_MISTAKES_STORED < l.length then
    (sortRev freqLe l).take MAX_MISTAKES_STORED
  else l

/-- Embedding of `MistakeStore.add_mistakes` on the snapshot the call loads:
merge the new mistakes, enforce the cap, save. -/
def add_mistakes (snapshot : MemorySnapshot) (newMistakes : List Mistake) : MemorySnapshot :=
  { snapshot with mistakes := capMistakes (mergeMistakes snapshot.mistakes newMistakes) }

/-- Entries dropped by the cap enforcement of `add_mistakes` (empty when no
eviction occurs). -/
def evictedMistakes (stored newMistakes : List Mistake) : List Mistake :=
  let merged := mergeMistakes stored newMistakes
  if MAX_MISTAKES_STORED < merged.length then
    (sortRev freqLe merged).drop MAX_MISTAKES_STORED
  else []

/-- Embedding of `MistakeStore.get_recurring_mistakes`. -/
def get_recurring_mistakes (snapshot : MemorySnapshot) : List Mistake :=
  snapshot.mistakes.filter (fun m => decide (MISTAKE_FREQUENCY_THRESHOLD ≤ m.frequency))

/-- Embedding of `MistakeStore.update_stats` on the loaded snapshot. -/
def update_stats (snapshot : MemorySnapshot) (success : Bool) : MemorySnapshot :=
  let snapshot1 := { snapshot with total_runs := snapshot.total_runs + 1 }
  if success then
    { snapshot1 with successful_runs := snapshot1.successful_runs + 1 }
  else snapshot1

/-- Derived metrics returned by `MistakeStore.get_stats`; the float success
rate is modelled as a rational. -/
structure Stats where
  total_runs : Int
  successful_runs : Int
  failed_runs : Int
  success_rate : Rat
  total_mistakes : Nat
  recurring_patterns : Nat
deriving DecidableEq

/-- Embedding of `MistakeStore.get_stats`. -/
def get_stats (snapshot : MemorySnapshot) : Stats :=
  { total_runs := snapshot.total_runs
    successful_runs := snapshot.successful_runs
    failed_runs := snapshot.total_runs - snapshot.successful_runs
    success_rate :=
      if 0 < snapshot.total_runs then
        (snapshot.successful_runs : Rat) / (snapshot.total_runs : Rat) * 100
      else 0
    total_mistakes := snapshot.mistakes.length
    recurring_patterns := (snapshot.mistakes.filter (fun m => decide (2 ≤ m.frequency))).length }

/-- Embedding of `MistakeStore.clear`: the snapshot it saves. -/
def clearSnapshot : MemorySnapshot :=
  { mistakes := [], version := "1.0", total_runs := 0, successful_runs := 0 }

/-! ## Concrete test data used by witnesses and counterexamples -/

/-- Shorthand for building a stored mistake of a given type, frequency and
timestamp. -/
def mkMistake (t : String) (f : Int) (ts : String) : Mistake :=
  { mistake_type := t, description := "d", corrective_rule := "r", frequency := f
    timestamp := ts, question := "q" }

/-- One-step plan fixture. -/
def planQ : ResearchPlan :=
  { question := "What is the capital of France?"
    steps := [{ step_number := 1, description := "search", tool_required := some "web_search"
                reasoning := "need data" }]
    estimated_time := "2-3 minutes" }

/-- Trace fixture in which no tool executed and the final answer admits the
lack of data (end-to-end scenario C). -/
def traceNoTools : ExecutionTrace :=
  { plan := planQ
    tools_executed := [{ tool_name := "web_search", executed := false
                         output_summary := none, error := some "skipped" }]
    final_answer := "I don\x27t have enough information about this topic."
    execution_time_seconds := 1 }

/-- Trace fixture in which web_search executed and then summarize executed. -/
def traceSearchThenSummarize : ExecutionTrace :=
  { plan := planQ
    tools_executed :=
      [{ tool_name := "web_search", executed := true, output_summary := some "res", error := none },
       { tool_name := "summarize", executed := true, output_summary := some "sum", error := none }]
    final_answer := "Paris."
    execution_time_seconds := 1 }

/-- Evaluation fixture whose issue list consists of the three Evaluator issue
strings. -/
def evaluationAllIssues : EvaluationResult :=
  { passed := false, score := 0, required_tools_used := false
    correct_sequence_followed := false, answer_supported_by_data := false
    feedback := "f", issues := [issueToolNotExecuted, issueWrongSequence, issueNotSupported] }

/-- Stored entry used by the C1 witness. -/
def storedToolSkipped : Mistake := mkMistake "TOOL_SKIPPED" 1 "t0"

/-- Snapshot holding exactly the one `storedToolSkipped` entry. -/
def snapOneEntry : MemorySnapshot :=
  { mistakes := [storedToolSkipped], version := "1.0", total_runs := 0, successful_runs := 0 }

/-- Two new mistakes of the already-stored category, in one call. -/
def newTwoToolSkipped : List Mistake :=
  [mkMistake "TOOL_SKIPPED" 1 "t1", mkMistake "TOOL_SKIPPED" 1 "t2"]

/-- A full-to-the-cap snapshot: category C with frequency 1 plus 99 filler
categories with frequency 10. -/
def snapAtCap : MemorySnapshot :=
  { mistakes := mkMistake "C" 1 "t0" :: (List.range 99).map (fun i => mkMistake ("T" ++ toString i) 10 "t0")
    version := "1.0", total_runs := 0, successful_runs := 0 }

/-- New mistakes that trigger eviction: two of the stored category C plus one
of a fresh category D whose carried frequency beats every stored entry. -/
def newTriggerEviction : List Mistake :=
  [mkMistake "C" 1 "t1", mkMistake "C" 1 "t2", mkMistake "D" 1000 "t3"]

/-- Stored mistake with frequency 3, as produced by recording the same
tool-skipped mistake three times (end-to-end scenario B). -/
def storedFrequencyThree : Mistake := mkMistake "TOOL_SKIPPED" 3 "t9"

/-! ## Lemmas about the stable sort -/

theorem insertStable_perm {α : Type} (le : α → α → Bool) (m : α) (l : List α) :
    (insertStable le m l).Perm (m :: l) := by
  induction l with
  | nil => simp [insertStable]
  | cons x rest ih =>
    simp only [insertStable]
    cases hle : le x m with
    | true => simp
    | false =>
      simp only [Bool.false_eq_true, if_false]
      exact (ih.cons x).trans (List.Perm.swap m x rest)

theorem sortRev_perm {α : Type} (le : α → α → Bool) (l : List α) :
    (sortRev le l).Perm l := by
  induction l with
  | nil => simp [sortRev]
  | cons x rest ih =>
    simpa [sortRev] using (insertStable_perm le x (sortRev le rest)).trans (ih.cons x)

theorem mem_insertStable {α : Type} (le : α → α → Bool) (m : α) (l : List α) (a : α) :
    a ∈ insertStable le m l ↔ a = m ∨ a ∈ l := by
  rw [(insertStable_perm le m l).mem_iff]
  simp

theorem mem_sortRev {α : Type} (le : α → α → Bool) (l : List α) (a : α) :
    a ∈ sortRev le l ↔ a ∈ l :=
  (sortRev_perm le l).mem_iff

theorem pairwise_insertStable {α : Type} {le : α → α → Bool}
    (htrans : ∀ a b c, le a b = true → le b c = true → le a c = true)
    (htot : ∀ a b, le a b = true ∨ le b a = true) (m : α) (l : List α)
    (h : l.Pairwise (fun a b => le b a = true)) :
    (insertStable le m l).Pairwise (fun a b => le b a = true) := by
  induction l with
  | nil => simp [insertStable]
  | cons x rest ih =>
    rcases List.pairwise_cons.mp h with ⟨hx, hrest⟩
    simp only [insertStable]
    cases hle : le x m with
    | true =>
      refine List.pairwise_cons.mpr ⟨?_, h⟩
      intro y hy
      rcases List.mem_cons.mp hy with rfl | hy
      · exact hle
      · exact htrans y x m (hx y hy) hle
    | false =>
      simp only [Bool.false_eq_true, if_false]
      refine List.pairwise_cons.mpr ⟨?_, ih hrest⟩
      intro y hy
      rcases (mem_insertStable le m rest y).mp hy with rfl | hy
      · rcases htot x y with h1 | h1
        · exact absurd h1 (by simp [hle])
        · exact h1
      · exact hx y hy

theorem pairwise_sortRev {α : Type} {le : α → α → Bool}
    (htrans : ∀ a b c, le a b = true → le b c = true → le a c = true)
    (htot : ∀ a b, le a b = true ∨ le b a = true) (l : List α) :
    (sortRev le l).Pairwise (fun a b => le b a = true) := by
  induction l with
  | nil => simp [sortRev]
  | cons x rest ih =>
    simpa [sortRev] using pairwise_insertStable htrans htot x (sortRev le rest) ih

/-! ## Lemmas about first-occurrence deduplication -/

theorem dedupFirst_go_nodup (l : List String) :
    ∀ acc : List String, acc.Nodup →
      (l.foldl (fun acc x => if acc.any (fun y => decide (y = x)) then acc else acc ++ [x]) acc).Nodup := by
  induction l with
  | nil => intro acc h; simpa using h
  | cons x rest ih =>
    intro acc h
    simp only [List.foldl_cons]
    cases hany : acc.any (fun y => decide (y = x)) with
    | true => simpa [hany] using ih acc h
    | false =>
      have hx : x ∉ acc := by
        intro hmem
        have : acc.any (fun y => decide (y = x)) = true :=
          List.any_eq_true.mpr ⟨x, hmem, by simp⟩
        simp [this] at hany
      have : (acc ++ [x]).Nodup := by
        simp [List.nodup_append, h, hx]
      simpa [hany] using ih (acc ++ [x]) this

theorem dedupFirst_nodup (l : List String) : (dedupFirst l).Nodup :=
  dedupFirst_go_nodup l [] List.nodup_nil

theorem mem_dedupFirst_go (l : List String) :
    ∀ (acc : List String) (a : String),
      (a ∈ l.foldl (fun acc x => if acc.any (fun y => decide (y = x)) then acc else acc ++ [x]) acc)
        ↔ a ∈ acc ∨ a ∈ l := by
  induction l with
  | nil => intro acc a; simp
  | cons x rest ih =>
    intro acc a
    simp only [List.foldl_cons]
    cases hany : acc.any (fun y => decide (y = x)) with
    | true =>
      have hx : x ∈ acc := by
        rcases List.any_eq_true.mp hany with ⟨y, hy, hyx⟩
        have : y = x := by simpa using hyx
        simpa [this] using hy
      simp only [hany, if_true]
      rw [ih acc a]
      constructor
      · rintro (h | h)
        · exact Or.inl h
        · exact Or.inr (List.mem_cons.mpr (Or.inr h))
      · rintro (h | h)
        · exact Or.inl h
        · rcases List.mem_cons.mp h with rfl | h
          · exact Or.inl hx
          · exact Or.inr h
    | false =>
      simp only [hany, Bool.false_eq_true, if_false]
      rw [ih (acc ++ [x]) a]
      simp only [List.mem_append, List.mem_singleton, List.mem_cons]
      tauto

theorem mem_dedupFirst (l : List String) (a : String) : a ∈ dedupFirst l ↔ a ∈ l := by
  rw [dedupFirst, mem_dedupFirst_go]
  simp

/-- On a duplicate-free list, filtering for one of its members yields exactly
that member. -/
theorem filter_eq_singleton_of_nodup :
    ∀ l : List String, l.Nodup → ∀ t ∈ l, l.filter (fun x => decide (x = t)) = [t] := by
  intro l
  induction l with
  | nil => intro _ t ht; cases ht
  | cons a rest ih =>
    intro h t ht
    rcases List.nodup_cons.mp h with ⟨ha, hrest⟩
    rcases List.mem_cons.mp ht with rfl | ht
    · have : rest.filter (fun x => decide (x = t)) = [] := by
        rw [List.filter_eq_nil_iff]
        intro x hx
        simp only [decide_eq_true_eq]
        intro hxa
        exact ha (hxa ▸ hx)
      simp [List.filter_cons, this]
    · have hat : ¬ (a = t) := fun hat => ha (hat ▸ ht)
      simp only [List.filter_cons, decide_eq_true_eq, hat, if_false]
      exact ih hrest t ht

/-! ## Lemmas about the merge loop of add_mistakes -/

theorem incrementFirst_map_type (nm : Mistake) :
    ∀ l : List Mistake,
      (incrementFirst l nm).map (fun m => m.mistake_type) = l.map (fun m => m.mistake_type) := by
  intro l
  induction l with
  | nil => rfl
  | cons m rest ih =>
    simp only [incrementFirst]
    by_cases hmt : m.mistake_type = nm.mistake_type
    · simp [hmt]
    · simp [hmt, ih]

theorem incrementFirst_filter_eq (c : String) (nm : Mistake) (hnm : nm.mistake_type = c)
    (e : Mistake) :
    ∀ l : List Mistake, l.filter (fun m => decide (m.mistake_type = c)) = [e] →
      (incrementFirst l nm).filter (fun m => decide (m.mistake_type = c)) =
        [{ e with frequency := e.frequency + 1, timestamp := nm.timestamp }] := by
  intro l
  induction l with
  | nil => intro h; simp at h
  | cons m rest ih =>
    intro h
    by_cases hm : m.mistake_type = c
    · have hcons : m :: rest.filter (fun m => decide (m.mistake_type = c)) = [e] := by
        simpa [List.filter_cons, hm] using h
      have hme : m = e := (List.cons_eq_cons.mp hcons).1
      have hrest : rest.filter (fun m => decide (m.mistake_type = c)) = [] :=
        (List.cons_eq_cons.mp hcons).2
      subst hme
      have hmatch : m.mistake_type = nm.mistake_type := by rw [hm, hnm]
      simp [incrementFirst, hmatch, List.filter_cons, hm, hrest, hnm]
    · have hne : ¬ m.mistake_type = nm.mistake_type := by rw [hnm]; exact hm
      have h2 : rest.filter (fun m => decide (m.mistake_type = c)) = [e] := by
        simpa [List.filter_cons, hm] using h
      simp [incrementFirst, hne, List.filter_cons, hm, ih h2]

theorem incrementFirst_filter_ne (c : String) (nm : Mistake) (hnm : ¬ nm.mistake_type = c) :
    ∀ l : List Mistake,
      (incrementFirst l nm).filter (fun m => decide (m.mistake_type = c)) =
        l.filter (fun m => decide (m.mistake_type = c)) := by
  intro l
  induction l with
  | nil => rfl
  | cons m rest ih =>
    simp only [incrementFirst]
    have hcn : ¬ c = nm.mistake_type := fun hh => hnm hh.symm
    by_cases hmt : m.mistake_type = nm.mistake_type
    · have hm : ¬ m.mistake_type = c := by rw [hmt]; exact hnm
      simp [List.filter_cons, hm, hmt, hnm]
    · by_cases hm : m.mistake_type = c
      · simp [List.filter_cons, hm, hmt, hnm, hcn, ih]
      · simp [List.filter_cons, hm, hmt, hnm, hcn, ih]

theorem mergeOne_filter_ne (c : String) (nm : Mistake) (hnm : ¬ nm.mistake_type = c)
    (l : List Mistake) :
    (mergeOne l nm).filter (fun m => decide (m.mistake_type = c)) =
      l.filter (fun m => decide (m.mistake_type = c)) := by
  unfold mergeOne
  cases hany : l.any (fun m => decide (m.mistake_type = nm.mistake_type)) with
  | true => simpa [hany] using incrementFirst_filter_ne c nm hnm l
  | false => simp [hany, List.filter_append, List.filter_cons, hnm]

theorem mergeOne_types_nodup (nm : Mistake) (l : List Mistake)
    (h : (l.map (fun m => m.mistake_type)).Nodup) :
    ((mergeOne l nm).map (fun m => m.mistake_type)).Nodup := by
  unfold mergeOne
  cases hany : l.any (fun m => decide (m.mistake_type = nm.mistake_type)) with
  | true => simpa [hany, incrementFirst_map_type] using h
  | false =>
    have hnotin : nm.mistake_type ∉ l.map (fun m => m.mistake_type) := by
      intro hmem
      rcases List.mem_map.mp hmem with ⟨m, hm, hmt⟩
      have : l.any (fun m => decide (m.mistake_type = nm.mistake_type)) = true :=
        List.any_eq_true.mpr ⟨m, hm, by simp [hmt]⟩
      simp [this] at hany
    simp [hany, List.nodup_append, h, hnotin]

theorem mergeMistakes_types_nodup (newMistakes : List Mistake) :
    ∀ stored : List Mistake, (stored.map (fun m => m.mistake_type)).Nodup →
      ((mergeMistakes stored newMistakes).map (fun m => m.mistake_type)).Nodup := by
  induction newMistakes with
  | nil => intro stored h; simpa [mergeMistakes] using h
  | cons nm rest ih =>
    intro stored h
    simpa [mergeMistakes, List.foldl_cons] using ih (mergeOne stored nm) (mergeOne_types_nodup nm stored h)

/-- Main merge lemma: if the stored list has exactly one entry `e` of
category `c`, then after merging a batch of new mistakes the category still
has exactly one entry, its frequency grew by the number of new mistakes of
category `c`, and its timestamp is that of the last such new mistake. -/
theorem mergeMistakes_filter (c : String) :
    ∀ (newMistakes stored : List Mistake) (e : Mistake),
      stored.filter (fun m => decide (m.mistake_type = c)) = [e] →
      (mergeMistakes stored newMistakes).filter (fun m => decide (m.mistake_type = c)) =
        [{ e with
            frequency := e.frequency +
              ((newMistakes.filter (fun m => decide (m.mistake_type = c))).length : Int)
            timestamp :=
              ((newMistakes.filter (fun m => decide (m.mistake_type = c))).map
                (fun m => m.timestamp)).getLastD e.timestamp }] := by
  intro newMistakes
  induction newMistakes with
  | nil =>
    intro stored e h
    simpa [mergeMistakes, List.filter_nil] using h
  | cons nm rest ih =>
    intro stored e h
    by_cases hc : nm.mistake_type = c
    · have hmem : e ∈ stored := by
        have : e ∈ stored.filter (fun m => decide (m.mistake_type = c)) := by
          rw [h]; exact List.mem_singleton_self e
        exact List.mem_of_mem_filter this
      have hec : e.mistake_type = c := by
        have : e ∈ stored.filter (fun m => decide (m.mistake_type = c)) := by
          rw [h]; exact List.mem_singleton_self e
        simpa using (List.of_mem_filter this)
      have hany : stored.any (fun m => decide (m.mistake_type = nm.mistake_type)) = true :=
        List.any_eq_true.mpr ⟨e, hmem, by simp [hec, hc]⟩
      have hrw : mergeOne stored nm = incrementFirst stored nm := by
        simp [mergeOne, hany]
      have hst' :
          (incrementFirst stored nm).filter (fun m => decide (m.mistake_type = c)) =
            [{ e with frequency := e.frequency + 1, timestamp := nm.timestamp }] :=
        incrementFirst_filter_eq c nm hc e stored h
      have hmain := ih (incrementFirst stored nm)
        ({ e with frequency := e.frequency + 1, timestamp := nm.timestamp }) hst'
      have hfilter : (nm :: rest).filter (fun m => decide (m.mistake_type = c)) =
          nm :: rest.filter (fun m => decide (m.mistake_type = c)) := by
        simp [List.filter_cons, hc]
      rw [show mergeMistakes stored (nm :: rest) = mergeMistakes (mergeOne stored nm) rest from rfl,
        hrw, hmain, hfilter]
      dsimp only
      simp only [List.length_cons, List.map_cons, List.getLastD_cons, List.cons.injEq,
        Mistake.mk.injEq, and_true, true_and]
      push_cast
      ring
    · have hrw := mergeOne_filter_ne c nm hc stored
      have hmain := ih (mergeOne stored nm) e (by rw [hrw]; exact h)
      rw [show mergeMistakes stored (nm :: rest) = mergeMistakes (mergeOne stored nm) rest from rfl,
        hmain]
      simp [List.filter_cons, hc]

/-! ## Lemmas about the cap enforcement -/

theorem capMistakes_length_le (l : List Mistake) :
    (capMistakes l).length ≤ MAX_MISTAKES_STORED := by
  unfold capMistakes
  split
  · exact (List.length_take _ _).le.trans (Nat.min_le_left _ _)
  · omega

theorem capMistakes_types_nodup (l : List Mistake)
    (h : (l.map (fun m => m.mistake_type)).Nodup) :
    ((capMistakes l).map (fun m => m.mistake_type)).Nodup := by
  unfold capMistakes
  split
  · have hperm : ((sortRev freqLe l).map (fun m => m.mistake_type)).Nodup :=
      (((sortRev_perm freqLe l).map (fun m => m.mistake_type)).nodup_iff).mpr h
    rw [List.map_take]
    exact hperm.sublist (List.take_sublist _ _)
  · exact h

/-! ## Lemmas about rule generation -/

theorem rules_filter_eq (ml : List Mistake) (t : String)
    (h : t ∈ ml.map (fun m => m.mistake_type)) :
    (((dedupFirst (ml.map (fun m => m.mistake_type))).map (ruleFor ml)).filter
        (fun r => decide (r.rule_id = generate_rule_id t))) = [ruleFor ml t] := by
  have hnodup := dedupFirst_nodup (ml.map (fun m => m.mistake_type))
  have hmem : t ∈ dedupFirst (ml.map (fun m => m.mistake_type)) :=
    (mem_dedupFirst _ t).mpr h
  rw [List.filter_map]
  have hcongr :
      (dedupFirst (ml.map (fun m => m.mistake_type))).filter
          ((fun r => decide (r.rule_id = generate_rule_id t)) ∘ ruleFor ml) =
        (dedupFirst (ml.map (fun m => m.mistake_type))).filter (fun x => decide (x = t)) := by
    apply List.filter_congr
    intro x _
    rfl
  rw [hcongr, filter_eq_singleton_of_nodup _ hnodup t hmem]
  rfl

/-! ## Claim C1 -/

/-- C1 (amended).  On a snapshot whose stored categories are pairwise
distinct and whose category `e.mistake_type` is stored exactly as the entry
`e`, the merge loop of `add_mistakes` leaves exactly one entry of that
category, with the frequency incremented by the number of new mistakes of
that category and the timestamp replaced by the last such new timestamp;
moreover the stored list after the full call (cap included) still has at
most one entry per category.  The original claim additionally asserted that
the entry survives the call itself, which fails when cap eviction drops it
(see the counterexample). -/
theorem add_mistakes_category_merge (snapshot : MemorySnapshot) (newMistakes : List Mistake)
    (e : Mistake)
    (h₁ : (snapshot.mistakes.map (fun m => m.mistake_type)).Nodup)
    (h₂ : snapshot.mistakes.filter (fun m => decide (m.mistake_type = e.mistake_type)) = [e]) :
    (mergeMistakes snapshot.mistakes newMistakes).filter
        (fun m => decide (m.mistake_type = e.mistake_type)) =
      [{ e with
          frequency := e.frequency +
            ((newMistakes.filter (fun m => decide (m.mistake_type = e.mistake_type))).length : Int)
          timestamp := ((newMistakes.filter (fun m => decide (m.mistake_type = e.mistake_type))).map
            (fun m => m.timestamp)).getLastD e.timestamp }] ∧
    ((add_mistakes snapshot newMistakes).mistakes.map (fun m => m.mistake_type)).Nodup := by
  constructor
  · exact mergeMistakes_filter e.mistake_type newMistakes snapshot.mistakes e h₂
  · exact capMistakes_types_nodup _ (mergeMistakes_types_nodup newMistakes snapshot.mistakes h₁)

/-- C1 witness: a store holding one TOOL_SKIPPED entry of frequency 1
receives two TOOL_SKIPPED mistakes in one call; the result is one entry of
frequency 3 carrying the last timestamp, and the stored categories stay
duplicate free. -/
theorem add_mistakes_category_merge_witness :
    (mergeMistakes snapOneEntry.mistakes newTwoToolSkipped).filter
        (fun m => decide (m.mistake_type = storedToolSkipped.mistake_type)) =
      [mkMistake "TOOL_SKIPPED" 3 "t2"] ∧
    ((add_mistakes snapOneEntry newTwoToolSkipped).mistakes.map (fun m => m.mistake_type)).Nodup := by
  have h := add_mistakes_category_merge snapOneEntry newTwoToolSkipped storedToolSkipped
    (by decide) (by decide)
  exact ⟨h.1.trans (by decide), h.2⟩

/-- C1 counterexample: a store at the cap (category C with frequency 1 and
99 fillers of frequency 10) receives two mistakes of category C and one of a
fresh high-frequency category D in a single call; the C entry is merged to
frequency 3 but then evicted by the cap, so the call leaves zero entries of
category C, not exactly one. -/
theorem add_mistakes_eviction_drops_category :
    snapAtCap.mistakes.filter (fun m => decide (m.mistake_type = "C")) = [mkMistake "C" 1 "t0"] ∧
    (newTriggerEviction.filter (fun m => decide (m.mistake_type = "C"))).length = 2 ∧
    (add_mistakes snapAtCap newTriggerEviction).mistakes.filter
      (fun m => decide (m.mistake_type = "C")) = [] := by
  refine ⟨by decide, by decide, ?_⟩
  set_option maxRecDepth 20000 in decide

/-! ## Claim C2 -/

/-- C2 (amended).  For every list of mistakes and every category present in
it, `generate_learning_rules` emits exactly one rule for that category, and
its priority is `min 10 (3 + k)` where `k` is the number of input mistakes
of that category (the group size) — the stored frequency field of the
mistakes is not consulted.  Priority is therefore monotonically
non-decreasing in the group size and capped at 10 (second conjunct: every
emitted rule has priority at most 10). -/
theorem generate_learning_rules_priority (ml : List Mistake) (t : String)
    (h : t ∈ ml.map (fun m => m.mistake_type)) :
    ((generate_learning_rules ml).filter
        (fun r => decide (r.rule_id = generate_rule_id t))).map (fun r => r.priority) =
      [min 10 (3 + (ml.filter (fun m => decide (m.mistake_type = t))).length)] ∧
    (generate_learning_rules ml).all (fun r => decide (r.priority ≤ 10)) = true := by
  constructor
  · have hperm :
        ((generate_learning_rules ml).filter (fun r => decide (r.rule_id = generate_rule_id t))).Perm
          ((((dedupFirst (ml.map (fun m => m.mistake_type))).map (ruleFor ml)).filter
            (fun r => decide (r.rule_id = generate_rule_id t)))) :=
      (sortRev_perm prioLe _).filter _
    rw [rules_filter_eq ml t h] at hperm
    rw [List.perm_singleton.mp hperm]
    rfl
  · rw [List.all_eq_true]
    intro r hr
    rw [generate_learning_rules, mem_sortRev] at hr
    rcases List.mem_map.mp hr with ⟨t', _, rfl⟩
    simp [ruleFor]

/-- C2 witness: a single stored TOOL_SKIPPED mistake with frequency field 3
yields exactly one rule for that category, and its priority is
`min 10 (3 + 1) = 4` (group size 1), with every emitted priority at most 10. -/
theorem generate_learning_rules_priority_witness :
    ((generate_learning_rules [storedFrequencyThree]).filter
        (fun r => decide (r.rule_id = generate_rule_id "TOOL_SKIPPED"))).map (fun r => r.priority) =
      [4] ∧
    (generate_learning_rules [storedFrequencyThree]).all (fun r => decide (r.priority ≤ 10)) = true := by
  have h := generate_learning_rules_priority [storedFrequencyThree] "TOOL_SKIPPED" (by decide)
  exact ⟨h.1.trans (by decide), h.2⟩

/-- C2 counterexample: the claim asserts priority
`min 10 (3 + stored frequency)`; for the stored mistake of frequency 3 that
would be 6, but the code produces priority 4 because it counts group members
(here 1) and ignores the frequency field. -/
theorem generate_learning_rules_ignores_frequency :
    storedFrequencyThree.frequency = 3 ∧
    (generate_learning_rules [storedFrequencyThree]).map (fun r => r.priority) = [4] ∧
    ¬ (generate_learning_rules [storedFrequencyThree]).map (fun r => r.priority) =
        [min 10 (3 + 3)] := by
  exact ⟨rfl, by decide, by decide⟩

/-! ## Claim C3 -/

/-- C3.  For every trace the evaluation score equals the number of true
sub-checks divided by 3, hence lies in {0, 1/3, 2/3, 1}, and the passed flag
(computed in the source as `score >= 0.66`) is true exactly when the score
is at least 2/3. -/
theorem evaluate_score_spec (trace : ExecutionTrace) :
    (evaluate trace).score = ((cond (evaluate trace).required_tools_used 1 0 +
        cond (evaluate trace).correct_sequence_followed 1 0 +
        cond (evaluate trace).answer_supported_by_data 1 0 : Nat) : Rat) / 3 ∧
    ((evaluate trace).score = 0 ∨ (evaluate trace).score = 1/3 ∨
      (evaluate trace).score = 2/3 ∨ (evaluate trace).score = 1) ∧
    ((evaluate trace).passed = true ↔ (2 : Rat)/3 ≤ (evaluate trace).score) := by
  refine ⟨rfl, ?_, ?_⟩ <;>
    cases h1 : requiredToolsUsed trace <;>
      cases h2 : check_sequence (executedToolNames trace) <;>
        cases h3 : check_answer_support trace <;>
          simp [evaluate, scoreOf, checksPassedOf, passedOf, h1, h2, h3,
            decide_eq_true_eq] <;> norm_num

/-! ## Claim C4 -/

/-- C4.  The sequence check is true exactly when search executed and, if
summarization also executed, the (first) position of search strictly
precedes that of summarization; consequently it is vacuously true when only
search executed, and false in every other case, including the empty
execution list. -/
theorem check_sequence_spec (trace : ExecutionTrace) :
    check_sequence (executedToolNames trace) = true ↔
      ("web_search" ∈ executedToolNames trace ∧
        ("summarize" ∈ executedToolNames trace →
          indexOfStr "web_search" (executedToolNames trace) <
            indexOfStr "summarize" (executedToolNames trace))) := by
  generalize executedToolNames trace = ts
  unfold check_sequence
  by_cases h0 : ts = []
  · subst h0; simp
  · by_cases hws : "web_search" ∈ ts
    · by_cases hsm : "summarize" ∈ ts
      · simp [h0, hws, hsm]
      · simp [h0, hws, hsm]
    · simp [h0, hws]

/-- C4 witness: in the trace where search executed first and summarization
second, the sequence check passes. -/
theorem check_sequence_spec_witness :
    check_sequence (executedToolNames traceSearchThenSummarize) = true :=
  (check_sequence_spec traceSearchThenSummarize).mpr ⟨by decide, fun _ => by decide⟩

/-! ## Claim C5 -/

/-- C5.  The support check is true whenever search executed; when search did
not execute it is true exactly when the lowered final answer contains one of
the fixed admission phrases (first conjunct, as a boolean equation); in
particular the no-tools trace whose answer contains the phrase
"I don\x27t have enough information" passes the support check (second
conjunct, end-to-end scenario C). -/
theorem check_answer_support_spec :
    (∀ trace : ExecutionTrace, check_answer_support trace =
      (webSearchExecuted trace ||
        admissionPhrases.any (fun p => containsSub (lowerStr trace.final_answer) p))) ∧
    check_answer_support traceNoTools = true := by
  constructor
  · intro trace
    unfold check_answer_support
    cases hw : webSearchExecuted trace <;> simp [hw]
  · decide

/-! ## Claim C6 -/

/-- C6.  After every `add_mistakes` call the stored list has at most
`MAX_MISTAKES_STORED` entries; the merged list is a permutation of the kept
entries plus the evicted entries; and every evicted entry has frequency at
most that of every retained entry (entries of strictly lower frequency are
evicted first). -/
theorem add_mistakes_cap_spec (snapshot : MemorySnapshot) (newMistakes : List Mistake) :
    (add_mistakes snapshot newMistakes).mistakes.length ≤ MAX_MISTAKES_STORED ∧
    (mergeMistakes snapshot.mistakes newMistakes).Perm
      ((add_mistakes snapshot newMistakes).mistakes ++
        evictedMistakes snapshot.mistakes newMistakes) ∧
    (evictedMistakes snapshot.mistakes newMistakes).all (fun e =>
      (add_mistakes snapshot newMistakes).mistakes.all
        (fun r => decide (e.frequency ≤ r.frequency))) = true := by
  have htrans : ∀ a b c : Mistake, freqLe a b = true → freqLe b c = true → freqLe a c = true := by
    intro a b c hab hbc
    simp only [freqLe, decide_eq_true_eq] at *
    exact le_trans hab hbc
  have htot : ∀ a b : Mistake, freqLe a b = true ∨ freqLe b a = true := by
    intro a b
    simp only [freqLe, decide_eq_true_eq]
    exact Int.le_total _ _
  refine ⟨capMistakes_length_le _, ?_⟩
  have hres : (add_mistakes snapshot newMistakes).mistakes =
      capMistakes (mergeMistakes snapshot.mistakes newMistakes) := rfl
  by_cases hlen :
      MAX_MISTAKES_STORED < (mergeMistakes snapshot.mistakes newMistakes).length
  · have hcap : capMistakes (mergeMistakes snapshot.mistakes newMistakes) =
        (sortRev freqLe (mergeMistakes snapshot.mistakes newMistakes)).take MAX_MISTAKES_STORED := by
      simp [capMistakes, hlen]
    have hev : evictedMistakes snapshot.mistakes newMistakes =
        (sortRev freqLe (mergeMistakes snapshot.mistakes newMistakes)).drop MAX_MISTAKES_STORED := by
      simp [evictedMistakes, hlen]
    constructor
    · rw [hres, hcap, hev, List.take_append_drop]
      exact (sortRev_perm freqLe _).symm
    · have hpair := pairwise_sortRev htrans htot (mergeMistakes snapshot.mistakes newMistakes)
      rw [← List.take_append_drop MAX_MISTAKES_STORED
        (sortRev freqLe (mergeMistakes snapshot.mistakes newMistakes)),
        List.pairwise_append] at hpair
      rcases hpair with ⟨-, -, hcross⟩
      rw [List.all_eq_true]
      intro e he
      rw [List.all_eq_true]
      intro r hr
      rw [hev] at he
      rw [hres, hcap] at hr
      simpa [freqLe] using hcross r hr e he
  · have hcap : capMistakes (mergeMistakes snapshot.mistakes newMistakes) =
        mergeMistakes snapshot.mistakes newMistakes := by
      simp [capMistakes, hlen]
    have hev : evictedMistakes snapshot.mistakes newMistakes = [] := by
      simp [evictedMistakes, hlen]
    rw [hres, hcap, hev]
    simp

/-! ## Claim C7 -/

/-- C7 (code bug).  The Learner matches the substring "not supported", but
the Evaluator emits the support issue "Answer may not be supported by search
data", which contains "not be supported" and never the contiguous substring
"not supported".  That branch therefore matches no Evaluator issue: on the
full Evaluator issue list, `analyze_failure` produces only the TOOL_SKIPPED
and WRONG_ORDER mistakes, drops the support issue (no PREMATURE_ANSWER or
UNSUPPORTED_CLAIM is ever recorded), and alone the support issue yields the
empty mistake list instead of one Mistake per issue. -/
theorem analyze_failure_drops_support_issue :
    containsSub (lowerStr issueNotSupported) "not supported" = false ∧
    analyze_failure "now1" traceNoTools
      { evaluationAllIssues with issues := [issueNotSupported] } = [] ∧
    (analyze_failure "now1" traceNoTools evaluationAllIssues).map
      (fun m => m.mistake_type) = ["TOOL_SKIPPED", "WRONG_ORDER"] := by
  exact ⟨by decide, by decide, by decide⟩

/-! ## Claim C8 -/

/-- Helper for C8: serializing each mistake and reading it back with the
load defaults is the identity. -/
theorem mistakes_doc_roundtrip (now : String) :
    ∀ l : List Mistake,
      ((l.map (fun m =>
        ({ mistake_type := m.mistake_type
           description := m.description
           corrective_rule := m.corrective_rule
           frequency := some m.frequency
           timestamp := some m.timestamp
           question := m.question } : StoredMistakeDoc))).map (fun m =>
        ({ mistake_type := m.mistake_type
           description := m.description
           corrective_rule := m.corrective_rule
           frequency := m.frequency.getD 1
           timestamp := m.timestamp.getD now
           question := m.question } : Mistake))) = l := by
  intro l
  induction l with
  | nil => rfl
  | cons m rest ih =>
    simp only [List.map_cons, List.cons.injEq]
    exact ⟨rfl, ih⟩

/-- C8.  Saving a snapshot to the store and loading it back reproduces the
identical mistake list, version string and run counters. -/
theorem load_save_roundtrip (now : String) (snapshot : MemorySnapshot) :
    load now (save snapshot) = snapshot := by
  cases snapshot with
  | mk mistakes version total successful =>
    simp only [save, load, Option.getD_some]
    rw [mistakes_doc_roundtrip now mistakes]

/-! ## Claim C9 -/

/-- C9.  With zero total runs, `get_stats` reports success rate 0: the
division is guarded by the `total_runs > 0` test, so no division is
performed in that state. -/
theorem get_stats_zero_runs (snapshot : MemorySnapshot)
    (h : snapshot.total_runs = 0) :
    (get_stats snapshot).success_rate = 0 := by
  simp [get_stats, h]

/-- C9 witness: the empty snapshot has total_runs 0 and success rate 0. -/
theorem get_stats_zero_runs_witness : (get_stats clearSnapshot).success_rate = 0 :=
  get_stats_zero_runs clearSnapshot rfl

/-! ## Claim C10 -/

/-- C10.  `update_stats` increments total_runs by exactly 1, increments
successful_runs by 1 exactly when success is true, and leaves the mistakes
list (hence every entry field) and the version string unchanged. -/
theorem update_stats_frame (snapshot : MemorySnapshot) (success : Bool) :
    (update_stats snapshot success).total_runs = snapshot.total_runs + 1 ∧
    (update_stats snapshot success).successful_runs =
      (if success then snapshot.successful_runs + 1 else snapshot.successful_runs) ∧
    (update_stats snapshot success).mistakes = snapshot.mistakes ∧
    (update_stats snapshot success).version = snapshot.version := by
  cases success <;> simp [update_stats]

end Agent
